import Mathlib

/-!
Verification of the AIGER stream decoder of
`src/lib/mockturtle/include/mockturtle/io/aiger_reader.hpp`
(class `NameMap` and class `aiger_reader`).

The decoder is embedded shallowly: the mutable members of `aiger_reader`
(`_num_inputs`, `outputs`, `signals`, `latches`) become a `ReaderState`
record threaded through the event handlers, and the destructor's
finalization pass becomes the function `finalize`.  The target network
(`Ntk`), which the repository only uses through its capability interface
(`get_constant`, `create_pi`, `create_po`, `create_not`, `create_and`,
`create_ro`, `create_ri`, `set_name`, `has_name`, `set_output_name`,
`has_output_name`), is modelled from that interface as an and-inverter
graph with complemented edges.

C++ `assert` statements are modelled in two ways: the handlers `on_and`
and `on_output` treat a failing assertion as the abort
`DecodeError.assertionFailure`, while `on_and_ndebug` is the same handler
as compiled with NDEBUG, where the assertion expands to nothing.
An out-of-bounds `std::vector::operator[]` access (undefined behavior in
the C++ source) is modelled as `DecodeError.outOfBoundsRead`.
-/

namespace AigerReader

/-- Association-list lookup, used to model map lookup on the keys that occur. -/
def lookupA {α β : Type} [DecidableEq α] (l : List (α × β)) (k : α) : Option β :=
  match l with
  | [] => none
  | p :: rest => if p.1 = k then some p.2 else lookupA rest k

/-- Association-list overwrite, used to model map assignment. -/
def setA {α β : Type} [DecidableEq α] (l : List (α × β)) (k : α) (v : β) : List (α × β) :=
  match l with
  | [] => [(k, v)]
  | p :: rest => if p.1 = k then (k, v) :: rest else p :: setA rest k v

/-- Left-biased choice on options. -/
def orO {α : Type} (a b : Option α) : Option α :=
  match a with
  | some x => some x
  | none => b

/-- Modelled from the spec: a Signal is an opaque handle of the target graph.
For an and-inverter graph with complemented edges it is a node index plus a
complement (inversion/polarity) flag; the target network `aig.hpp` is not part
of the analysed sources. -/
structure Signal where
  node : Nat
  complement : Bool
deriving DecidableEq, Repr

/-- Modelled from the spec: the kind of a node of the target graph
(constant, primary input, register output, or conjunction with its two
operand signals). -/
inductive GateKind where
  | const : GateKind
  | pi : GateKind
  | ro : GateKind
  | andg : Signal → Signal → GateKind
deriving DecidableEq, Repr

/-- Modelled from the spec: the target logic network, recording its nodes,
primary outputs, register inputs, per-signal names and per-output-position
names.  Only the capability interface listed in the spec is exposed. -/
structure Ntk where
  nodes : List GateKind
  pos : List Signal
  ris : List (Signal × Int)
  names : List (Signal × String)
  outputNames : List (Nat × String)
deriving DecidableEq, Repr

/-- Modelled from the spec: a fresh target graph holding only the reserved
constant node at index 0. -/
def initNtk : Ntk := ⟨[GateKind.const], [], [], [], []⟩

/-- Modelled from the spec: constant retrieval; the polarity selects the
complemented edge to the constant node. -/
def Ntk.get_constant (_n : Ntk) (b : Bool) : Signal := ⟨0, b⟩

/-- Modelled from the spec: primary-input creation appends a fresh node and
returns its non-inverted signal. -/
def Ntk.create_pi (n : Ntk) : Ntk × Signal :=
  ({ n with nodes := n.nodes ++ [GateKind.pi] }, ⟨n.nodes.length, false⟩)

/-- Modelled from the spec: register-output creation appends a fresh node and
returns its non-inverted signal. -/
def Ntk.create_ro (n : Ntk) : Ntk × Signal :=
  ({ n with nodes := n.nodes ++ [GateKind.ro] }, ⟨n.nodes.length, false⟩)

/-- Modelled from the spec: negation flips the complement flag of a signal
(complemented-edge representation); the network itself is not modified. -/
def Ntk.create_not (_n : Ntk) (s : Signal) : Signal := ⟨s.node, !s.complement⟩

/-- Modelled from the spec: conjunction creation appends a fresh AND node
with the two operand signals and returns its non-inverted signal. -/
def Ntk.create_and (n : Ntk) (l r : Signal) : Ntk × Signal :=
  ({ n with nodes := n.nodes ++ [GateKind.andg l r] }, ⟨n.nodes.length, false⟩)

/-- Modelled from the spec: primary-output creation records the driving
signal at the next output position. -/
def Ntk.create_po (n : Ntk) (s : Signal) : Ntk :=
  { n with pos := n.pos ++ [s] }

/-- Modelled from the spec: register-input creation records the next-state
signal together with the reset value. -/
def Ntk.create_ri (n : Ntk) (s : Signal) (reset : Int) : Ntk :=
  { n with ris := n.ris ++ [(s, reset)] }

/-- Modelled from the spec: per-signal naming capability. -/
def Ntk.set_name (n : Ntk) (s : Signal) (nm : String) : Ntk :=
  { n with names := setA n.names s nm }

/-- Modelled from the spec: per-signal name presence query. -/
def Ntk.has_name (n : Ntk) (s : Signal) : Bool :=
  (lookupA n.names s).isSome

/-- Modelled from the spec: per-output-position naming capability. -/
def Ntk.set_output_name (n : Ntk) (index : Nat) (nm : String) : Ntk :=
  { n with outputNames := setA n.outputNames index nm }

/-- Modelled from the spec: per-output-position name presence query. -/
def Ntk.has_output_name (n : Ntk) (index : Nat) : Bool :=
  (lookupA n.outputNames index).isSome

/-- NameMap of aiger_reader.hpp: forward map from a signal to its ordered
list of names (`_names`) and reverse map from a name to a signal
(`_rev_names`). -/
structure NameMap where
  names : List (Signal × List String)
  revNames : List (String × Signal)
deriving DecidableEq, Repr

/-- A default-constructed NameMap. -/
def NameMap.empty : NameMap := ⟨[], []⟩

/-- Forward-map part of NameMap::insert (aiger_reader.hpp lines 53-62):
append the name to the signal's list, creating a singleton list when the
signal has no entry yet. -/
def addName (l : List (Signal × List String)) (s : Signal) (nm : String) :
    List (Signal × List String) :=
  match l with
  | [] => [(s, [nm])]
  | p :: rest => if p.1 = s then (p.1, p.2 ++ [nm]) :: rest else p :: addName rest s nm

/-- NameMap::insert (aiger_reader.hpp lines 51-71).  The reverse map is
updated with std::unordered_map::insert, which leaves the map unchanged when
the key is already present (the collision is only logged as a warning). -/
def NameMap.insert (m : NameMap) (s : Signal) (nm : String) : NameMap :=
  { names := addName m.names s nm,
    revNames :=
      match lookupA m.revNames nm with
      | some _ => m.revNames
      | none => m.revNames ++ [(nm, s)] }

/-- NameMap::get_name (aiger_reader.hpp lines 83-86); std::map::at throwing
on a missing key is modelled as `none`. -/
def NameMap.get_name (m : NameMap) (s : Signal) : Option (List String) :=
  lookupA m.names s

/-- NameMap::has_name (aiger_reader.hpp lines 88-96). -/
def NameMap.has_name (m : NameMap) (s : Signal) (nm : String) : Bool :=
  match lookupA m.names s with
  | none => false
  | some l => l.contains nm

/-- NameMap::get_name_to_signal_mapping (aiger_reader.hpp lines 98-101):
returns the reverse map. -/
def NameMap.get_name_to_signal_mapping (m : NameMap) : List (String × Signal) :=
  m.revNames

/-- Name list of a signal in a NameMap, defaulting to the empty list. -/
def namesOfD (m : NameMap) (s : Signal) : List String :=
  (m.get_name s).getD []

/-- All NameMap::insert calls of a list of (signal, name) pairs, in order,
starting from a default-constructed NameMap. -/
def insertAll (ops : List (Signal × String)) : NameMap :=
  ops.foldl (fun m p => m.insert p.1 p.2) NameMap.empty

/-- latch_init_value of lorina, as used by aiger_reader::on_latch. -/
inductive LatchInitValue where
  | zero : LatchInitValue
  | one : LatchInitValue
  | nondeterministic : LatchInitValue
deriving DecidableEq, Repr

/-- Failure of the decode as modelled: `assertionFailure` is a failing C++
assert (which aborts the process in debug builds), `outOfBoundsRead` is an
out-of-bounds std::vector access (undefined behavior in the C++ source). -/
inductive DecodeError where
  | assertionFailure : DecodeError
  | outOfBoundsRead : DecodeError
deriving DecidableEq, Repr

/-- The mutable members of aiger_reader (aiger_reader.hpp lines 286-289):
`_num_inputs`, `outputs` (pending literal/name pairs), `signals` (the
SignalTable) and `latches` (pending next-literal/reset/name triples). -/
structure ReaderState where
  num_inputs : Nat
  outputs : List (Nat × String)
  signals : List Signal
  latches : List (Nat × Int × String)
deriving DecidableEq, Repr

/-- The reader state at construction time. -/
def initState : ReaderState := ⟨0, [], [], []⟩

/-- Literal resolution as performed at every use site of the reader:
table lookup at `lit >> 1`, negation when `lit & 1` is set
(aiger_reader.hpp lines 149-154, 171-178, 254-264).  A lookup outside the
table is the out-of-bounds case `none`. -/
def resolveLit (n : Ntk) (sigs : List Signal) (lit : Nat) : Option Signal :=
  match sigs.get? (lit >>> 1) with
  | some s => some (if lit &&& 1 ≠ 0 then n.create_not s else s)
  | none => none

/-- Total variant of literal resolution used to state results (the network
argument of `create_not` is irrelevant to the produced signal). -/
def resolveD (sigs : List Signal) (lit : Nat) : Signal :=
  (resolveLit initNtk sigs lit).getD ⟨0, false⟩

/-- Primary-input creation loop of aiger_reader::on_header (lines 204-216):
push a fresh primary input and give it the default name "pi<i>" when it has
none. -/
def createPis (k i : Nat) (n : Ntk) (sigs : List Signal) : Ntk × List Signal :=
  match k with
  | 0 => (n, sigs)
  | Nat.succ kk =>
    let n1 := (n.create_pi).1
    let s := (n.create_pi).2
    let n2 := if n1.has_name s then n1 else n1.set_name s ("pi" ++ toString i)
    createPis kk (i + 1) n2 (sigs ++ [s])

/-- Register-output creation loop of aiger_reader::on_header (lines 219-222). -/
def createRos (k : Nat) (n : Ntk) (sigs : List Signal) : Ntk × List Signal :=
  match k with
  | 0 => (n, sigs)
  | Nat.succ kk => createRos kk ((n.create_ro).1) (sigs ++ [(n.create_ro).2])

/-- aiger_reader::on_header (aiger_reader.hpp lines 196-223): record the
input count, push the constant signal, then the primary inputs, then the
register outputs. -/
def on_header (num_inputs num_latches : Nat) (n : Ntk) (st : ReaderState) :
    Ntk × ReaderState :=
  let sigs0 := st.signals ++ [n.get_constant false]
  let r1 := createPis num_inputs 0 n sigs0
  let r2 := createRos num_latches r1.1 r1.2
  (r2.1, { st with num_inputs := num_inputs, signals := r2.2 })

/-- aiger_reader::on_input_name (lines 225-231): rename signals[1 + index]. -/
def on_input_name (index : Nat) (nm : String) (n : Ntk) (st : ReaderState) :
    Except DecodeError Ntk :=
  match st.signals.get? (1 + index) with
  | some s => Except.ok (n.set_name s nm)
  | none => Except.error DecodeError.outOfBoundsRead

/-- aiger_reader::on_output_name (lines 233-239): name output position
`index` directly on the target graph. -/
def on_output_name (index : Nat) (nm : String) (n : Ntk) : Ntk :=
  n.set_output_name index nm

/-- aiger_reader::on_latch_name (lines 241-247): rename
signals[1 + _num_inputs + index]. -/
def on_latch_name (index : Nat) (nm : String) (n : Ntk) (st : ReaderState) :
    Except DecodeError Ntk :=
  match st.signals.get? (1 + st.num_inputs + index) with
  | some s => Except.ok (n.set_name s nm)
  | none => Except.error DecodeError.outOfBoundsRead

/-- aiger_reader::on_and (lines 249-267) with the C++ assert active (debug
build): check signals.size() == index, resolve both operand literals, append
the conjunction signal. -/
def on_and (index left_lit right_lit : Nat) (n : Ntk) (st : ReaderState) :
    Except DecodeError (Ntk × ReaderState) :=
  if st.signals.length = index then
    match resolveLit n st.signals left_lit, resolveLit n st.signals right_lit with
    | some l, some r =>
        Except.ok ((n.create_and l r).1,
          { st with signals := st.signals ++ [(n.create_and l r).2] })
    | _, _ => Except.error DecodeError.outOfBoundsRead
  else Except.error DecodeError.assertionFailure

/-- aiger_reader::on_and as compiled with NDEBUG: the assert on the index
expands to nothing and the index is ignored (the source casts it to void). -/
def on_and_ndebug (_index left_lit right_lit : Nat) (n : Ntk) (st : ReaderState) :
    Except DecodeError (Ntk × ReaderState) :=
  match resolveLit n st.signals left_lit, resolveLit n st.signals right_lit with
  | some l, some r =>
      Except.ok ((n.create_and l r).1,
        { st with signals := st.signals ++ [(n.create_and l r).2] })
  | _, _ => Except.error DecodeError.outOfBoundsRead

/-- Reset-value conversion of aiger_reader::on_latch (line 272). -/
def latchResetValue (reset : LatchInitValue) : Int :=
  match reset with
  | LatchInitValue.nondeterministic => -1
  | LatchInitValue.one => 1
  | LatchInitValue.zero => 0

/-- aiger_reader::on_latch (lines 269-274): record the pending latch with an
empty name; the index is ignored and the graph is untouched. -/
def on_latch (_index next : Nat) (reset : LatchInitValue) (st : ReaderState) :
    ReaderState :=
  { st with latches := st.latches ++ [(next, latchResetValue reset, "")] }

/-- aiger_reader::on_output (lines 276-281) with the C++ assert active:
check index == outputs.size(), record the pending output with an empty name. -/
def on_output (index lit : Nat) (st : ReaderState) : Except DecodeError ReaderState :=
  if st.outputs.length = index then
    Except.ok { st with outputs := st.outputs ++ [(lit, "")] }
  else Except.error DecodeError.assertionFailure

/-- Output loop of the aiger_reader destructor (lines 146-167): resolve each
pending output literal, insert its recorded name into the NameMap when one
is attached, create the primary output, and give output position
`idx` the default name "po<idx>" when it has none. -/
def processOutputs (outs : List (Nat × String)) (sigs : List Signal) (idx : Nat)
    (n : Ntk) (nm : Option NameMap) :
    Except DecodeError (Ntk × Option NameMap × Nat) :=
  match outs with
  | [] => Except.ok (n, nm, idx)
  | (lit, onm) :: rest =>
    match resolveLit n sigs lit with
    | none => Except.error DecodeError.outOfBoundsRead
    | some s =>
      let nm1 := nm.map (fun m => m.insert s onm)
      let n1 := n.create_po s
      let n2 := if n1.has_output_name idx then n1
                else n1.set_output_name idx ("po" ++ toString idx)
      processOutputs rest sigs (idx + 1) n2 nm1

/-- Latch loop of the aiger_reader destructor (lines 168-193): resolve each
pending next-state literal, insert the stored latch name with "_next"
appended into the NameMap when one is attached, create the register input
with the recorded reset value, and give the combined output position `idx`
the default name "li<lidx>" when it has none. -/
def processLatches (lts : List (Nat × Int × String)) (sigs : List Signal)
    (lidx idx : Nat) (n : Ntk) (nm : Option NameMap) :
    Except DecodeError (Ntk × Option NameMap × Nat) :=
  match lts with
  | [] => Except.ok (n, nm, idx)
  | (lit, reset, lname) :: rest =>
    match resolveLit n sigs lit with
    | none => Except.error DecodeError.outOfBoundsRead
    | some s =>
      let nm1 := nm.map (fun m => m.insert s (lname ++ "_next"))
      let n1 := n.create_ri s reset
      let n2 := if n1.has_output_name idx then n1
                else n1.set_output_name idx ("li" ++ toString lidx)
      processLatches rest sigs (lidx + 1) (idx + 1) n2 nm1

/-- The aiger_reader destructor (lines 144-194): process all pending outputs
with output positions numbered from 0, then all pending latches with latch
numbers from 1, continuing the same output-position numbering. -/
def finalize (n : Ntk) (nm : Option NameMap) (st : ReaderState) :
    Except DecodeError (Ntk × Option NameMap) :=
  match processOutputs st.outputs st.signals 0 n nm with
  | Except.error e => Except.error e
  | Except.ok r1 =>
    match processLatches st.latches st.signals 1 r1.2.2 r1.1 r1.2.1 with
    | Except.error e => Except.error e
    | Except.ok r2 => Except.ok (r2.1, r2.2.1)

/-- The structural and naming events delivered by the lorina event source,
in file order (the header fields are M I L O A; only I and L are used). -/
inductive Event where
  | header : Nat → Nat → Nat → Nat → Nat → Event
  | inputName : Nat → String → Event
  | latchName : Nat → String → Event
  | outputName : Nat → String → Event
  | andGate : Nat → Nat → Nat → Event
  | latchEv : Nat → Nat → LatchInitValue → Event
  | outputEv : Nat → Nat → Event
deriving DecidableEq, Repr

/-- One event dispatched to the corresponding aiger_reader handler. -/
def step (e : Event) (cfg : Ntk × ReaderState) : Except DecodeError (Ntk × ReaderState) :=
  match e with
  | Event.header _ i l _ _ => Except.ok (on_header i l cfg.1 cfg.2)
  | Event.inputName idx nm =>
    match on_input_name idx nm cfg.1 cfg.2 with
    | Except.ok n1 => Except.ok (n1, cfg.2)
    | Except.error e => Except.error e
  | Event.latchName idx nm =>
    match on_latch_name idx nm cfg.1 cfg.2 with
    | Except.ok n1 => Except.ok (n1, cfg.2)
    | Except.error e => Except.error e
  | Event.outputName idx nm => Except.ok (on_output_name idx nm cfg.1, cfg.2)
  | Event.andGate idx l r => on_and idx l r cfg.1 cfg.2
  | Event.latchEv idx next reset => Except.ok (cfg.1, on_latch idx next reset cfg.2)
  | Event.outputEv idx lit =>
    match on_output idx lit cfg.2 with
    | Except.ok st1 => Except.ok (cfg.1, st1)
    | Except.error e => Except.error e

/-- Run a list of events in file order. -/
def runEvents (events : List Event) (cfg : Ntk × ReaderState) :
    Except DecodeError (Ntk × ReaderState) :=
  match events with
  | [] => Except.ok cfg
  | e :: rest =>
    match step e cfg with
    | Except.error err => Except.error err
    | Except.ok cfg1 => runEvents rest cfg1

/-- A whole decode: run all events on a fresh graph and reader, then run the
finalization pass exactly once. -/
def decode (events : List Event) (nm : Option NameMap) :
    Except DecodeError (Ntk × Option NameMap) :=
  match runEvents events (initNtk, initState) with
  | Except.error e => Except.error e
  | Except.ok cfg => finalize cfg.1 nm cfg.2

/-- NameMap contents produced by the destructor's output loop: every pending
output's recorded name inserted for its resolved signal, in order. -/
def insertOutputNames (sigs : List Signal) (outs : List (Nat × String)) (m : NameMap) :
    NameMap :=
  outs.foldl (fun acc p => acc.insert (resolveD sigs p.1) p.2) m

/-- NameMap contents produced by the destructor's latch loop: every pending
latch's stored name with "_next" appended, inserted for its resolved
next-state signal, in order. -/
def insertLatchNames (sigs : List Signal) (lts : List (Nat × Int × String)) (m : NameMap) :
    NameMap :=
  lts.foldl (fun acc t => acc.insert (resolveD sigs t.1) (t.2.2 ++ "_next")) m

/-- The latch-loop NameMap insertions when every stored latch name is empty:
the inserted name is literally "_next" for every latch. -/
def insertLatchNamesNext (sigs : List Signal) (lts : List (Nat × Int × String)) (m : NameMap) :
    NameMap :=
  lts.foldl (fun acc t => acc.insert (resolveD sigs t.1) "_next") m

/-- Is a node a primary input. -/
def isPiG (g : GateKind) : Bool :=
  match g with
  | GateKind.pi => true
  | _ => false

/-- Is a node a conjunction. -/
def isAndG (g : GateKind) : Bool :=
  match g with
  | GateKind.andg _ _ => true
  | _ => false

/-- The event stream of the end-to-end scenario: header with 2 inputs and 0
latches, one AND event (index 3, literals 2 and 4), one output event
(index 0, literal 6). -/
def c1events : List Event :=
  [Event.header 3 2 0 1 1, Event.andGate 3 2 4, Event.outputEv 0 6]

/-- The graph the end-to-end scenario produces. -/
def c1ntk : Ntk :=
  ⟨[GateKind.const, GateKind.pi, GateKind.pi,
    GateKind.andg ⟨1, false⟩ ⟨2, false⟩],
   [⟨3, false⟩], [],
   [(⟨1, false⟩, "pi0"), (⟨2, false⟩, "pi1")],
   [(0, "po0")]⟩

/-- A reader state holding a single table entry, used as a concrete input. -/
def stOne : ReaderState := ⟨0, [], [⟨0, false⟩], []⟩

/-- A concrete two-entry signal table. -/
def sigsTwo : List Signal := [⟨0, false⟩, ⟨5, true⟩]

/-- Concrete signals used in the NameMap claims. -/
def sigA : Signal := ⟨1, false⟩

/-- Second concrete signal used in the NameMap claims. -/
def sigB : Signal := ⟨2, false⟩

/-- A concrete reader state with one pending output and one pending latch. -/
def stFin : ReaderState := ⟨0, [(0, "")], [⟨0, false⟩], [(1, 1, "x")]⟩

/-- A concrete event stream declaring one input and one latch. -/
def evsL : List Event :=
  [Event.header 0 1 1 0 0, Event.latchEv 0 2 LatchInitValue.one]

/-- The graph reached by `evsL` before finalization. -/
def ntkL : Ntk :=
  ⟨[GateKind.const, GateKind.pi, GateKind.ro], [], [],
   [(⟨1, false⟩, "pi0")], []⟩

/-- The reader state reached by `evsL` before finalization. -/
def stL : ReaderState :=
  ⟨1, [], [⟨0, false⟩, ⟨1, false⟩, ⟨2, false⟩], [(2, 1, "")]⟩

theorem orO_none {α : Type} (a : Option α) : orO a none = a := by
  cases a <;> rfl

theorem orO_some {α : Type} (x : α) (b : Option α) : orO (some x) b = some x := rfl

theorem orO_assoc {α : Type} (a b c : Option α) :
    orO (orO a b) c = orO a (orO b c) := by
  cases a <;> rfl

theorem lookupA_append {α β : Type} [DecidableEq α] (l1 l2 : List (α × β)) (k : α) :
    lookupA (l1 ++ l2) k = orO (lookupA l1 k) (lookupA l2 k) := by
  induction l1 with
  | nil => simp [lookupA, orO]
  | cons p rest ih =>
    by_cases h : p.1 = k
    · simp [lookupA, h, orO]
    · simp [lookupA, h, ih]

theorem lookupA_setA {α β : Type} [DecidableEq α] (l : List (α × β)) (k : α) (v : β)
    (k' : α) : lookupA (setA l k v) k' = if k' = k then some v else lookupA l k' := by
  induction l with
  | nil =>
    by_cases h : k' = k
    · simp [setA, lookupA, h]
    · simp [setA, lookupA, h, Ne.symm h]
  | cons p rest ih =>
    by_cases h1 : p.1 = k
    · by_cases h2 : k' = k
      · simp [setA, lookupA, h1, h2]
      · simp [setA, lookupA, h1, h2, Ne.symm h2]
    · by_cases h3 : p.1 = k'
      · have hkk : ¬ k' = k := fun hh => h1 (h3.trans hh)
        simp [setA, lookupA, h1, h3, hkk]
      · simp [setA, lookupA, h1, h3, ih]

theorem lookupA_addName (l : List (Signal × List String)) (s : Signal) (nm : String)
    (s' : Signal) :
    lookupA (addName l s nm) s' =
      if s' = s then some (((lookupA l s).getD []) ++ [nm]) else lookupA l s' := by
  induction l with
  | nil =>
    by_cases h : s' = s
    · simp [addName, lookupA, h]
    · simp [addName, lookupA, h, Ne.symm h]
  | cons p rest ih =>
    by_cases h1 : p.1 = s
    · by_cases h2 : s' = s
      · simp [addName, lookupA, h1, h2]
      · simp [addName, lookupA, h1, h2, Ne.symm h2]
    · by_cases h3 : p.1 = s'
      · have hss : ¬ s' = s := fun hh => h1 (h3.trans hh)
        simp [addName, lookupA, h1, h3, hss]
      · simp [addName, lookupA, h1, h3, ih]

theorem namesOfD_insert (m : NameMap) (s : Signal) (nm : String) (s' : Signal) :
    namesOfD (m.insert s nm) s' =
      if s' = s then namesOfD m s' ++ [nm] else namesOfD m s' := by
  unfold namesOfD NameMap.get_name NameMap.insert
  rw [lookupA_addName]
  by_cases h : s' = s
  · simp [h]
  · simp [h]

theorem get_name_insert_self (m : NameMap) (s : Signal) (nm : String) :
    (m.insert s nm).get_name s = some (namesOfD m s ++ [nm]) := by
  unfold NameMap.get_name NameMap.insert namesOfD
  rw [lookupA_addName]
  simp [NameMap.get_name]

theorem lookupA_revNames_insert (m : NameMap) (s : Signal) (nm nm' : String) :
    lookupA (m.insert s nm).revNames nm' =
      if nm' = nm then orO (lookupA m.revNames nm) (some s)
      else lookupA m.revNames nm' := by
  unfold NameMap.insert
  cases h : lookupA m.revNames nm with
  | some x =>
    by_cases h2 : nm' = nm
    · simp [h2, h, orO]
    · simp [h2]
  | none =>
    rw [lookupA_append]
    by_cases h2 : nm' = nm
    · simp [h2, h, lookupA, orO]
    · simp [h2, lookupA, Ne.symm h2, orO_none]

theorem revNames_foldl_insert (ops : List (Signal × String)) (m : NameMap) (nm : String) :
    lookupA (ops.foldl (fun acc p => acc.insert p.1 p.2) m).revNames nm =
      orO (lookupA m.revNames nm)
        ((ops.find? (fun p => decide (p.2 = nm))).map (fun p => p.1)) := by
  induction ops generalizing m with
  | nil => simp [orO_none]
  | cons p rest ih =>
    rw [List.foldl_cons, ih, lookupA_revNames_insert]
    by_cases h : p.2 = nm
    · subst h
      rw [List.find?_cons_of_pos _ (by simp)]
      simp only [eq_self_iff_true, if_true, Option.map_some]
      rw [orO_assoc, orO_some]
      rfl
    · rw [List.find?_cons_of_neg _ (by simpa using h)]
      simp only [if_neg (Ne.symm h)]

theorem namesOfD_foldl_insert (ops : List (Signal × String)) (m : NameMap) (s : Signal) :
    namesOfD (ops.foldl (fun acc p => acc.insert p.1 p.2) m) s =
      namesOfD m s ++ (ops.filter (fun p => decide (p.1 = s))).map (fun p => p.2) := by
  induction ops generalizing m with
  | nil => simp
  | cons p rest ih =>
    rw [List.foldl_cons, ih, namesOfD_insert]
    by_cases h : p.1 = s
    · simp [h, List.filter_cons]
    · simp [h, Ne.symm h, List.filter_cons]

/-- Claim C4, counterexample: inserting the same name "a" for two different
signals leaves the reverse map at the first signal, not the most recent
one (std::unordered_map::insert does not overwrite an existing key). -/
theorem claim_C4_counterexample :
    lookupA (NameMap.get_name_to_signal_mapping
        ((NameMap.empty.insert sigA "a").insert sigB "a")) "a" = some sigA
    ∧ sigA ≠ sigB := by
  constructor
  · rfl
  · decide

/-- Claim C4 (amended): after any sequence of NameMap.insert calls, the
reverse map returned by get_name_to_signal_mapping maps each name to the
signal supplied by the FIRST insert call that used that name (first write
wins on collision), while the forward map retains every inserted name for
each signal in insertion order (no entry is dropped on collision). -/
theorem claim_C4 (ops : List (Signal × String)) (nm : String) (s : Signal) :
    lookupA (NameMap.get_name_to_signal_mapping (insertAll ops)) nm =
      (ops.find? (fun p => decide (p.2 = nm))).map (fun p => p.1)
    ∧ namesOfD (insertAll ops) s =
      (ops.filter (fun p => decide (p.1 = s))).map (fun p => p.2) := by
  constructor
  · rw [insertAll, NameMap.get_name_to_signal_mapping, revNames_foldl_insert]
    simp [NameMap.empty, lookupA, orO]
  · rw [insertAll, namesOfD_foldl_insert]
    simp [NameMap.empty, namesOfD, NameMap.get_name, lookupA]

/-- Claim C8: after NameMap.insert(s, n) the name list recorded for s ends
with n (and contains it); a subsequent insert of a different name for the
same signal extends the list, keeping both names in insertion order. -/
theorem claim_C8 (m : NameMap) (s : Signal) (n1 n2 : String) (_h : n1 ≠ n2) :
    namesOfD (m.insert s n1) s = namesOfD m s ++ [n1]
    ∧ (m.insert s n1).get_name s = some (namesOfD m s ++ [n1])
    ∧ n1 ∈ namesOfD (m.insert s n1) s
    ∧ namesOfD ((m.insert s n1).insert s n2) s = namesOfD m s ++ [n1, n2] := by
  have h1 : namesOfD (m.insert s n1) s = namesOfD m s ++ [n1] := by
    rw [namesOfD_insert]; simp
  refine ⟨h1, get_name_insert_self m s n1, ?_, ?_⟩
  · rw [h1]; simp
  · rw [namesOfD_insert]
    simp [h1]

/-- Claim C8, witness at a concrete map, signal and names. -/
theorem claim_C8_witness :
    ("a" : String) ≠ "b"
    ∧ (namesOfD (NameMap.empty.insert sigA "a") sigA = namesOfD NameMap.empty sigA ++ ["a"]
      ∧ (NameMap.empty.insert sigA "a").get_name sigA =
          some (namesOfD NameMap.empty sigA ++ ["a"])
      ∧ "a" ∈ namesOfD (NameMap.empty.insert sigA "a") sigA
      ∧ namesOfD ((NameMap.empty.insert sigA "a").insert sigA "b") sigA =
          namesOfD NameMap.empty sigA ++ ["a", "b"]) :=
  ⟨by decide, claim_C8 NameMap.empty sigA "a" "b" (by decide)⟩

theorem pi_name_step_fields (n1 : Ntk) (s : Signal) (nm : String) :
    (if n1.has_name s then n1 else n1.set_name s nm).nodes = n1.nodes
    ∧ (if n1.has_name s then n1 else n1.set_name s nm).pos = n1.pos
    ∧ (if n1.has_name s then n1 else n1.set_name s nm).ris = n1.ris
    ∧ (if n1.has_name s then n1 else n1.set_name s nm).outputNames = n1.outputNames := by
  split <;> exact ⟨rfl, rfl, rfl, rfl⟩

theorem createPis_spec (k : Nat) : ∀ (i : Nat) (n : Ntk) (sigs : List Signal),
    (createPis k i n sigs).2 =
      sigs ++ (List.range' n.nodes.length k).map (fun j => Signal.mk j false)
    ∧ (createPis k i n sigs).1.nodes = n.nodes ++ List.replicate k GateKind.pi
    ∧ (createPis k i n sigs).1.pos = n.pos
    ∧ (createPis k i n sigs).1.ris = n.ris
    ∧ (createPis k i n sigs).1.outputNames = n.outputNames := by
  induction k with
  | zero => intro i n sigs; simp [createPis]
  | succ kk ih =>
    intro i n sigs
    simp only [createPis]
    obtain ⟨hnodes, hpos, hris, hout⟩ :=
      pi_name_step_fields (n.create_pi).1 (n.create_pi).2 ("pi" ++ toString i)
    obtain ⟨h1, h2, h3, h4, h5⟩ := ih (i + 1)
      (if (n.create_pi).1.has_name (n.create_pi).2 then (n.create_pi).1
       else (n.create_pi).1.set_name (n.create_pi).2 ("pi" ++ toString i))
      (sigs ++ [(n.create_pi).2])
    have hlen : (if (n.create_pi).1.has_name (n.create_pi).2 then (n.create_pi).1
       else (n.create_pi).1.set_name (n.create_pi).2 ("pi" ++ toString i)).nodes.length
        = n.nodes.length + 1 := by
      rw [hnodes]; simp [Ntk.create_pi]
    refine ⟨?_, ?_, ?_, ?_, ?_⟩
    · rw [h1, hlen, List.range'_succ]
      simp [Ntk.create_pi, List.append_assoc]
    · rw [h2, hnodes]
      simp [Ntk.create_pi, List.replicate_succ, List.append_assoc]
    · rw [h3, hpos]; rfl
    · rw [h4, hris]; rfl
    · rw [h5, hout]; rfl

theorem createRos_spec (k : Nat) : ∀ (n : Ntk) (sigs : List Signal),
    (createRos k n sigs).2 =
      sigs ++ (List.range' n.nodes.length k).map (fun j => Signal.mk j false)
    ∧ (createRos k n sigs).1.nodes = n.nodes ++ List.replicate k GateKind.ro
    ∧ (createRos k n sigs).1.pos = n.pos
    ∧ (createRos k n sigs).1.ris = n.ris
    ∧ (createRos k n sigs).1.outputNames = n.outputNames
    ∧ (createRos k n sigs).1.names = n.names := by
  induction k with
  | zero => intro n sigs; simp [createRos]
  | succ kk ih =>
    intro n sigs
    simp only [createRos]
    obtain ⟨h1, h2, h3, h4, h5, h6⟩ := ih ((n.create_ro).1) (sigs ++ [(n.create_ro).2])
    have hlen : ((n.create_ro).1).nodes.length = n.nodes.length + 1 := by
      simp [Ntk.create_ro]
    refine ⟨?_, ?_, ?_, ?_, ?_, ?_⟩
    · rw [h1, hlen, List.range'_succ]
      simp [Ntk.create_ro, List.append_assoc]
    · rw [h2]
      simp [Ntk.create_ro, List.replicate_succ, List.append_assoc]
    · rw [h3]; rfl
    · rw [h4]; rfl
    · rw [h5]; rfl
    · rw [h6]; rfl

/-- Claim C2: immediately after on_header with counts (numInputs, numLatches)
on a fresh reader, the SignalTable is the constant-false signal followed by
the numInputs freshly created primary-input signals in creation order and
then the numLatches freshly created register-output signals in creation
order; in particular its length is 1 + numInputs + numLatches.  The nodes
equation shows the listed node indices are exactly the appended primary
input and register-output nodes. -/
theorem claim_C2 (n : Ntk) (i l : Nat) :
    ((on_header i l n initState).2).signals =
      Ntk.get_constant n false ::
        ((List.range' n.nodes.length i).map (fun j => Signal.mk j false)
          ++ (List.range' (n.nodes.length + i) l).map (fun j => Signal.mk j false))
    ∧ ((on_header i l n initState).2).signals.length = 1 + i + l
    ∧ (on_header i l n initState).1.nodes =
        n.nodes ++ List.replicate i GateKind.pi ++ List.replicate l GateKind.ro
    ∧ ((on_header i l n initState).2).num_inputs = i := by
  have hpis := createPis_spec i 0 n (initState.signals ++ [n.get_constant false])
  obtain ⟨p1, p2, p3, p4, p5⟩ := hpis
  have hros := createRos_spec l ((createPis i 0 n (initState.signals ++ [n.get_constant false])).1)
    ((createPis i 0 n (initState.signals ++ [n.get_constant false])).2)
  obtain ⟨r1, r2, r3, r4, r5, r6⟩ := hros
  have hlen1 : ((createPis i 0 n (initState.signals ++ [n.get_constant false])).1).nodes.length
      = n.nodes.length + i := by
    rw [p2]; simp
  have hsig : ((on_header i l n initState).2).signals =
      Ntk.get_constant n false ::
        ((List.range' n.nodes.length i).map (fun j => Signal.mk j false)
          ++ (List.range' (n.nodes.length + i) l).map (fun j => Signal.mk j false)) := by
    show (createRos l _ _).2 = _
    rw [r1, p1, hlen1]
    simp [initState, List.append_assoc]
  refine ⟨hsig, ?_, ?_, rfl⟩
  · rw [hsig]
    simp
    try omega
  · show (createRos l _ _).1.nodes = _
    rw [r2, p2]

/-- Claim C3, counterexample: an AND event whose index (5) differs from the
SignalTable length (1) is processed without any failure when the C++ assert
is compiled out (NDEBUG), and with the assert active it aborts through the
assertion rather than raising a MalformedStream error to the caller (no
such error exists in the code). -/
theorem claim_C3_counterexample :
    stOne.signals.length = 1
    ∧ on_and_ndebug 5 0 0 initNtk stOne =
        Except.ok ((initNtk.create_and ⟨0, false⟩ ⟨0, false⟩).1,
          { stOne with signals := stOne.signals ++ [(initNtk.create_and ⟨0, false⟩ ⟨0, false⟩).2] })
    ∧ on_and 5 0 0 initNtk stOne = Except.error DecodeError.assertionFailure := by
  refine ⟨rfl, rfl, rfl⟩

/-- Claim C3 (amended): on_and checks that the asserted index equals the
SignalTable length only through a C assert: with the assertion active a
mismatch aborts as an assertion failure (not a MalformedStream error raised
to the caller), with a matching index the handler behaves exactly like the
NDEBUG build, and with the assertion compiled out the index is ignored
entirely, so a mismatched index is processed without any failure. -/
theorem claim_C3 (n : Ntk) (st : ReaderState) (index left right : Nat) :
    (st.signals.length ≠ index →
      on_and index left right n st = Except.error DecodeError.assertionFailure)
    ∧ (st.signals.length = index →
      on_and index left right n st = on_and_ndebug index left right n st)
    ∧ (∀ index2, on_and_ndebug index left right n st = on_and_ndebug index2 left right n st) := by
  refine ⟨?_, ?_, ?_⟩
  · intro h
    simp [on_and, h]
  · intro h
    simp [on_and, on_and_ndebug, h]
  · intro index2
    rfl

/-- Claim C3, witness at concrete inputs. -/
theorem claim_C3_witness :
    (on_and 5 1 1 initNtk stOne = Except.error DecodeError.assertionFailure)
    ∧ (on_and 1 1 1 initNtk stOne = on_and_ndebug 1 1 1 initNtk stOne)
    ∧ (on_and_ndebug 5 1 1 initNtk stOne = on_and_ndebug 7 1 1 initNtk stOne) :=
  ⟨(claim_C3 initNtk stOne 5 1 1).1 (by decide),
   (claim_C3 initNtk stOne 1 1 1).2.1 (by decide),
   (claim_C3 initNtk stOne 5 1 1).2.2 7⟩

theorem resolveLit_none (n : Ntk) (sigs : List Signal) (lit : Nat)
    (h : sigs.length ≤ lit >>> 1) : resolveLit n sigs lit = none := by
  unfold resolveLit
  rw [List.get?_eq_none.mpr h]

/-- Claim C5, counterexample: an AND event whose left literal's node index
(5 = 10 >> 1) lies outside the two-entry SignalTable makes the decode read
past the table (an out-of-bounds std::vector access, undefined behavior);
the code performs no range check and raises no MalformedStream error. -/
theorem claim_C5_counterexample :
    sigsTwo.length = 2
    ∧ (10 : Nat) >>> 1 = 5
    ∧ on_and 2 10 0 initNtk ⟨0, [], sigsTwo, []⟩ =
        Except.error DecodeError.outOfBoundsRead
    ∧ processOutputs [(10, "")] sigsTwo 0 initNtk none =
        Except.error DecodeError.outOfBoundsRead := by
  refine ⟨rfl, rfl, rfl, rfl⟩

/-- Claim C5 (amended): an AND event or a pending output whose literal's
node index lies outside the SignalTable makes the decode read past the
table (modelled as the out-of-bounds failure); the code contains no range
check and no MalformedStream error. -/
theorem claim_C5 (n : Ntk) (st : ReaderState) :
    (∀ index left right, st.signals.length = index → st.signals.length ≤ left >>> 1 →
      on_and index left right n st = Except.error DecodeError.outOfBoundsRead)
    ∧ (∀ nm idx lit onm rest, st.signals.length ≤ lit >>> 1 →
      processOutputs ((lit, onm) :: rest) st.signals idx n nm =
        Except.error DecodeError.outOfBoundsRead) := by
  constructor
  · intro index left right hidx hoob
    simp [on_and, hidx, resolveLit_none n st.signals left hoob]
  · intro nm idx lit onm rest hoob
    simp [processOutputs, resolveLit_none n st.signals lit hoob]

/-- Claim C5, witness at concrete inputs. -/
theorem claim_C5_witness :
    (on_and 2 10 0 initNtk ⟨0, [], sigsTwo, []⟩ = Except.error DecodeError.outOfBoundsRead)
    ∧ (processOutputs [(10, "x")] sigsTwo 3 initNtk none =
        Except.error DecodeError.outOfBoundsRead) :=
  ⟨(claim_C5 initNtk ⟨0, [], sigsTwo, []⟩).1 2 10 0 (by decide) (by decide),
   (claim_C5 initNtk ⟨0, [], sigsTwo, []⟩).2 none 3 10 "x" [] (by decide)⟩

theorem testBit_one_succ (i : Nat) : Nat.testBit 1 (1 + i) = false := by
  cases hb : Nat.testBit 1 (1 + i) with
  | false => rfl
  | true =>
    have := Nat.testBit_one_eq_true_iff_self_eq_zero.mp hb
    omega

theorem xor_one_shiftRight (L : Nat) : (L ^^^ 1) >>> 1 = L >>> 1 := by
  apply Nat.eq_of_testBit_eq
  intro i
  rw [Nat.testBit_shiftRight, Nat.testBit_shiftRight, Nat.testBit_xor, testBit_one_succ]
  simp

/-- Claim C7: literal resolution is involutive on the polarity bit: for a
literal L whose node index is inside the SignalTable, resolving L and then
applying the target graph's negation gives the same signal as resolving
L ^ 1. -/
theorem claim_C7 (n : Ntk) (sigs : List Signal) (L : Nat) (h : L >>> 1 < sigs.length) :
    (resolveLit n sigs L).map n.create_not = resolveLit n sigs (L ^^^ 1) := by
  cases hg : sigs.get? (L >>> 1) with
  | none => exact absurd (List.get?_eq_none.mp hg) (by omega)
  | some s =>
    have hand : (L ^^^ 1) &&& 1 = (L &&& 1) ^^^ 1 := by
      rw [Nat.and_xor_distrib_right]
      simp [Nat.and_one_is_mod]
    have hm : L &&& 1 = L % 2 := Nat.and_one_is_mod L
    unfold resolveLit
    rw [xor_one_shiftRight, hg]
    rcases Nat.mod_two_eq_zero_or_one L with h0 | h1
    · rw [hand, hm, h0]
      simp [Ntk.create_not]
    · rw [hand, hm, h1]
      simp [Ntk.create_not]

/-- Claim C7, witness at a concrete table and literal. -/
theorem claim_C7_witness :
    (3 : Nat) >>> 1 < sigsTwo.length
    ∧ (resolveLit initNtk sigsTwo 3).map initNtk.create_not =
        resolveLit initNtk sigsTwo (3 ^^^ 1) :=
  ⟨by decide, claim_C7 initNtk sigsTwo 3 (by decide)⟩

theorem resolveLit_eq_resolveD (n : Ntk) (sigs : List Signal) (lit : Nat) (s : Signal)
    (hg : sigs.get? (lit >>> 1) = some s) :
    resolveLit n sigs lit = some (resolveD sigs lit) := by
  unfold resolveD resolveLit
  rw [hg]
  simp [Ntk.create_not]

theorem resolveLit_some (n : Ntk) (sigs : List Signal) (lit : Nat)
    (h : lit >>> 1 < sigs.length) :
    resolveLit n sigs lit = some (resolveD sigs lit) := by
  cases hg : sigs.get? (lit >>> 1) with
  | none => exact absurd (List.get?_eq_none.mp hg) (by omega)
  | some s => exact resolveLit_eq_resolveD n sigs lit s hg

theorem out_name_step_fields (n1 : Ntk) (idx : Nat) (nm : String) :
    (if n1.has_output_name idx then n1 else n1.set_output_name idx nm).pos = n1.pos
    ∧ (if n1.has_output_name idx then n1 else n1.set_output_name idx nm).nodes = n1.nodes
    ∧ (if n1.has_output_name idx then n1 else n1.set_output_name idx nm).ris = n1.ris
    ∧ (if n1.has_output_name idx then n1 else n1.set_output_name idx nm).names = n1.names := by
  split <;> exact ⟨rfl, rfl, rfl, rfl⟩

theorem out_name_step_lookup (n1 : Ntk) (idx : Nat) (nm : String) (k : Nat) :
    lookupA (if n1.has_output_name idx then n1 else n1.set_output_name idx nm).outputNames k =
      if k = idx then orO (lookupA n1.outputNames idx) (some nm)
      else lookupA n1.outputNames k := by
  by_cases hk : k = idx
  · subst hk
    cases hl : lookupA n1.outputNames k with
    | some x => simp [Ntk.has_output_name, hl, orO]
    | none => simp [Ntk.has_output_name, hl, orO, Ntk.set_output_name, lookupA_setA]
  · cases hl : lookupA n1.outputNames idx with
    | some x => simp [Ntk.has_output_name, hl, hk]
    | none => simp [Ntk.has_output_name, hl, hk, Ntk.set_output_name, lookupA_setA]

theorem processOutputs_spec (outs : List (Nat × String)) :
    ∀ (sigs : List Signal) (idx : Nat) (n : Ntk) (nm : Option NameMap),
    (∀ p ∈ outs, p.1 >>> 1 < sigs.length) →
    ∃ n2, processOutputs outs sigs idx n nm =
        Except.ok (n2, nm.map (fun m => insertOutputNames sigs outs m), idx + outs.length)
      ∧ n2.pos = n.pos ++ outs.map (fun p => resolveD sigs p.1)
      ∧ n2.nodes = n.nodes
      ∧ n2.ris = n.ris
      ∧ n2.names = n.names
      ∧ (∀ j, j < outs.length → lookupA n2.outputNames (idx + j) =
          orO (lookupA n.outputNames (idx + j)) (some ("po" ++ toString (idx + j))))
      ∧ (∀ k, k < idx ∨ idx + outs.length ≤ k →
          lookupA n2.outputNames k = lookupA n.outputNames k) := by
  induction outs with
  | nil =>
    intro sigs idx n nm _
    refine ⟨n, ?_, by simp, rfl, rfl, rfl, ?_, ?_⟩
    · simp [processOutputs, insertOutputNames]
    · intro j hj
      simp at hj
    · intro k _
      rfl
  | cons p rest ih =>
    obtain ⟨lit, onm⟩ := p
    intro sigs idx n nm hh
    have hlt : lit >>> 1 < sigs.length := hh (lit, onm) (by simp)
    have hres := resolveLit_some n sigs lit hlt
    have hstep : processOutputs ((lit, onm) :: rest) sigs idx n nm =
        processOutputs rest sigs (idx + 1)
          (if (n.create_po (resolveD sigs lit)).has_output_name idx
           then n.create_po (resolveD sigs lit)
           else (n.create_po (resolveD sigs lit)).set_output_name idx ("po" ++ toString idx))
          (nm.map (fun m => m.insert (resolveD sigs lit) onm)) := by
      simp only [processOutputs, hres]
    obtain ⟨n2, hrun, hpos, hnodes, hris, hnames, hA, hB⟩ :=
      ih sigs (idx + 1)
        (if (n.create_po (resolveD sigs lit)).has_output_name idx
         then n.create_po (resolveD sigs lit)
         else (n.create_po (resolveD sigs lit)).set_output_name idx ("po" ++ toString idx))
        (nm.map (fun m => m.insert (resolveD sigs lit) onm))
        (fun q hq => hh q (List.mem_cons_of_mem _ hq))
    have hfields := out_name_step_fields (n.create_po (resolveD sigs lit)) idx
      ("po" ++ toString idx)
    have hlookup := out_name_step_lookup (n.create_po (resolveD sigs lit)) idx
      ("po" ++ toString idx)
    have hmap : (nm.map (fun m => m.insert (resolveD sigs lit) onm)).map
          (fun m => insertOutputNames sigs rest m)
        = nm.map (fun m => insertOutputNames sigs ((lit, onm) :: rest) m) := by
      cases nm <;> rfl
    refine ⟨n2, ?_, ?_, ?_, ?_, ?_, ?_, ?_⟩
    · have hidx : idx + 1 + rest.length = idx + (rest.length + 1) := by omega
      rw [hstep, hrun, hmap, List.length_cons, hidx]
    · rw [hpos, hfields.1]
      simp [Ntk.create_po, List.append_assoc]
    · rw [hnodes, hfields.2.1]
      rfl
    · rw [hris, hfields.2.2.1]
      rfl
    · rw [hnames, hfields.2.2.2]
      rfl
    · intro j hj
      cases j with
      | zero =>
        rw [Nat.add_zero, hB idx (Or.inl (by omega)), hlookup idx, if_pos rfl]
        rfl
      | succ jj =>
        have hj2 : jj < rest.length := by
          simp only [List.length_cons] at hj
          omega
        have harith : idx + (jj + 1) = idx + 1 + jj := by omega
        rw [harith, hA jj hj2, hlookup (idx + 1 + jj), if_neg (by omega)]
        rfl
    · intro k hk
      simp only [List.length_cons] at hk
      have hk2 : k < idx + 1 ∨ idx + 1 + rest.length ≤ k := by omega
      rw [hB k hk2, hlookup k, if_neg (by omega)]
      rfl

theorem processLatches_spec (lts : List (Nat × Int × String)) :
    ∀ (sigs : List Signal) (lidx idx : Nat) (n : Ntk) (nm : Option NameMap),
    (∀ t ∈ lts, t.1 >>> 1 < sigs.length) →
    ∃ n2, processLatches lts sigs lidx idx n nm =
        Except.ok (n2, nm.map (fun m => insertLatchNames sigs lts m), idx + lts.length)
      ∧ n2.ris = n.ris ++ lts.map (fun t => (resolveD sigs t.1, t.2.1))
      ∧ n2.nodes = n.nodes
      ∧ n2.pos = n.pos
      ∧ n2.names = n.names
      ∧ (∀ j, j < lts.length → lookupA n2.outputNames (idx + j) =
          orO (lookupA n.outputNames (idx + j)) (some ("li" ++ toString (lidx + j))))
      ∧ (∀ k, k < idx ∨ idx + lts.length ≤ k →
          lookupA n2.outputNames k = lookupA n.outputNames k) := by
  induction lts with
  | nil =>
    intro sigs lidx idx n nm _
    refine ⟨n, ?_, by simp, rfl, rfl, rfl, ?_, ?_⟩
    · simp [processLatches, insertLatchNames]
    · intro j hj
      simp at hj
    · intro k _
      rfl
  | cons t rest ih =>
    obtain ⟨lit, reset, lname⟩ := t
    intro sigs lidx idx n nm hh
    have hlt : lit >>> 1 < sigs.length := hh (lit, reset, lname) (by simp)
    have hres := resolveLit_some n sigs lit hlt
    have hstep : processLatches ((lit, reset, lname) :: rest) sigs lidx idx n nm =
        processLatches rest sigs (lidx + 1) (idx + 1)
          (if (n.create_ri (resolveD sigs lit) reset).has_output_name idx
           then n.create_ri (resolveD sigs lit) reset
           else (n.create_ri (resolveD sigs lit) reset).set_output_name idx
             ("li" ++ toString lidx))
          (nm.map (fun m => m.insert (resolveD sigs lit) (lname ++ "_next"))) := by
      simp only [processLatches, hres]
    obtain ⟨n2, hrun, hris, hnodes, hpos, hnames, hA, hB⟩ :=
      ih sigs (lidx + 1) (idx + 1)
        (if (n.create_ri (resolveD sigs lit) reset).has_output_name idx
         then n.create_ri (resolveD sigs lit) reset
         else (n.create_ri (resolveD sigs lit) reset).set_output_name idx
           ("li" ++ toString lidx))
        (nm.map (fun m => m.insert (resolveD sigs lit) (lname ++ "_next")))
        (fun q hq => hh q (List.mem_cons_of_mem _ hq))
    have hfields := out_name_step_fields (n.create_ri (resolveD sigs lit) reset) idx
      ("li" ++ toString lidx)
    have hlookup := out_name_step_lookup (n.create_ri (resolveD sigs lit) reset) idx
      ("li" ++ toString lidx)
    have hmap : (nm.map (fun m => m.insert (resolveD sigs lit) (lname ++ "_next"))).map
          (fun m => insertLatchNames sigs rest m)
        = nm.map (fun m => insertLatchNames sigs ((lit, reset, lname) :: rest) m) := by
      cases nm <;> rfl
    refine ⟨n2, ?_, ?_, ?_, ?_, ?_, ?_, ?_⟩
    · have hidx : idx + 1 + rest.length = idx + (rest.length + 1) := by omega
      rw [hstep, hrun, hmap, List.length_cons, hidx]
    · rw [hris, hfields.2.2.1]
      simp [Ntk.create_ri, List.append_assoc]
    · rw [hnodes, hfields.2.1]
      rfl
    · rw [hpos, hfields.1]
      rfl
    · rw [hnames, hfields.2.2.2]
      rfl
    · intro j hj
      cases j with
      | zero =>
        rw [Nat.add_zero, hB idx (Or.inl (by omega)), hlookup idx, if_pos rfl, Nat.add_zero]
        rfl
      | succ jj =>
        have hj2 : jj < rest.length := by
          simp only [List.length_cons] at hj
          omega
        have harith : idx + (jj + 1) = idx + 1 + jj := by omega
        have harith2 : lidx + (jj + 1) = lidx + 1 + jj := by omega
        rw [harith, harith2, hA jj hj2, hlookup (idx + 1 + jj), if_neg (by omega)]
        rfl
    · intro k hk
      simp only [List.length_cons] at hk
      have hk2 : k < idx + 1 ∨ idx + 1 + rest.length ≤ k := by omega
      rw [hB k hk2, hlookup k, if_neg (by omega)]
      rfl

theorem finalize_spec (n : Ntk) (nm : Option NameMap) (st : ReaderState)
    (ho : ∀ p ∈ st.outputs, p.1 >>> 1 < st.signals.length)
    (hl : ∀ t ∈ st.latches, t.1 >>> 1 < st.signals.length) :
    ∃ n2, finalize n nm st =
        Except.ok (n2, nm.map (fun m =>
          insertLatchNames st.signals st.latches (insertOutputNames st.signals st.outputs m)))
      ∧ n2.pos = n.pos ++ st.outputs.map (fun p => resolveD st.signals p.1)
      ∧ n2.ris = n.ris ++ st.latches.map (fun t => (resolveD st.signals t.1, t.2.1))
      ∧ n2.nodes = n.nodes
      ∧ n2.names = n.names
      ∧ (∀ j, j < st.outputs.length → lookupA n2.outputNames j =
          orO (lookupA n.outputNames j) (some ("po" ++ toString j)))
      ∧ (∀ j, j < st.latches.length →
          lookupA n2.outputNames (st.outputs.length + j) =
          orO (lookupA n.outputNames (st.outputs.length + j))
            (some ("li" ++ toString (1 + j))))
      ∧ (∀ k, st.outputs.length + st.latches.length ≤ k →
          lookupA n2.outputNames k = lookupA n.outputNames k) := by
  obtain ⟨n1, hrun1, hpos1, hnodes1, hris1, hnames1, hA1, hB1⟩ :=
    processOutputs_spec st.outputs st.signals 0 n nm ho
  rw [Nat.zero_add] at hrun1
  simp only [Nat.zero_add] at hA1 hB1
  obtain ⟨n2, hrun2, hris2, hnodes2, hpos2, hnames2, hA2, hB2⟩ :=
    processLatches_spec st.latches st.signals 1 st.outputs.length n1
      (nm.map (fun m => insertOutputNames st.signals st.outputs m)) hl
  have hmm : (nm.map (fun m => insertOutputNames st.signals st.outputs m)).map
        (fun m => insertLatchNames st.signals st.latches m)
      = nm.map (fun m =>
          insertLatchNames st.signals st.latches (insertOutputNames st.signals st.outputs m)) := by
    cases nm <;> rfl
  refine ⟨n2, ?_, ?_, ?_, ?_, ?_, ?_, ?_, ?_⟩
  · unfold finalize
    rw [hrun1]
    simp only
    rw [hrun2, hmm]
  · rw [hpos2, hpos1]
  · rw [hris2, hris1]
  · rw [hnodes2, hnodes1]
  · rw [hnames2, hnames1]
  · intro j hj
    rw [hB2 j (Or.inl hj), hA1 j hj]
  · intro j hj
    rw [hA2 j hj, hB1 (st.outputs.length + j) (Or.inr (by omega))]
  · intro k hk
    rw [hB2 k (Or.inr (by omega)), hB1 k (Or.inr (by omega))]

/-- Claim C1: on the end-to-end stream (header with 2 inputs and 0 latches,
AND event (3, 2, 4), output event (0, 6)) the decode followed by
finalization produces a graph with exactly 2 primary inputs, exactly one
AND gate whose operands are those two primary inputs non-inverted, and one
primary output equal to the AND gate's non-inverted signal, with default
name "po0" at output position 0. -/
theorem claim_C1 :
    decode c1events none = Except.ok (c1ntk, none)
    ∧ (c1ntk.nodes.filter isPiG).length = 2
    ∧ c1ntk.nodes.filter isAndG = [GateKind.andg ⟨1, false⟩ ⟨2, false⟩]
    ∧ c1ntk.nodes.get? 1 = some GateKind.pi
    ∧ c1ntk.nodes.get? 2 = some GateKind.pi
    ∧ c1ntk.nodes.get? 3 = some (GateKind.andg ⟨1, false⟩ ⟨2, false⟩)
    ∧ c1ntk.pos = [⟨3, false⟩]
    ∧ lookupA c1ntk.outputNames 0 = some "po0" :=
  ⟨by rfl, by decide, by decide, by decide, by decide, by decide, by decide, by rfl⟩

/-- Claim C6: finalization processes all pending outputs and then all
pending latches, each in declaration order, assigning output positions from
one contiguous numbering space (outputs at positions 0..numOutputs-1, then
latches at the following positions); every output position without a name
receives "po<position>" (positions from 0) and every latch position without
a name receives "li<latchNumber>" (latch numbers from 1). -/
theorem claim_C6 (n : Ntk) (nm : Option NameMap) (st : ReaderState)
    (ho : ∀ p ∈ st.outputs, p.1 >>> 1 < st.signals.length)
    (hl : ∀ t ∈ st.latches, t.1 >>> 1 < st.signals.length) :
    ∃ n2 nm2, finalize n nm st = Except.ok (n2, nm2)
      ∧ n2.pos = n.pos ++ st.outputs.map (fun p => resolveD st.signals p.1)
      ∧ n2.ris = n.ris ++ st.latches.map (fun t => (resolveD st.signals t.1, t.2.1))
      ∧ (∀ j, j < st.outputs.length → lookupA n2.outputNames j =
          orO (lookupA n.outputNames j) (some ("po" ++ toString j)))
      ∧ (∀ j, j < st.latches.length →
          lookupA n2.outputNames (st.outputs.length + j) =
          orO (lookupA n.outputNames (st.outputs.length + j))
            (some ("li" ++ toString (1 + j)))) := by
  obtain ⟨n2, hfin, hpos, hris, _, _, hpo, hli, _⟩ := finalize_spec n nm st ho hl
  exact ⟨n2, _, hfin, hpos, hris, hpo, hli⟩

/-- Claim C6, witness at a concrete finalization input. -/
theorem claim_C6_witness :
    ∃ n2 nm2, finalize initNtk none stFin = Except.ok (n2, nm2)
      ∧ n2.pos = initNtk.pos ++ stFin.outputs.map (fun p => resolveD stFin.signals p.1)
      ∧ n2.ris = initNtk.ris ++ stFin.latches.map (fun t => (resolveD stFin.signals t.1, t.2.1))
      ∧ (∀ j, j < stFin.outputs.length → lookupA n2.outputNames j =
          orO (lookupA initNtk.outputNames j) (some ("po" ++ toString j)))
      ∧ (∀ j, j < stFin.latches.length →
          lookupA n2.outputNames (stFin.outputs.length + j) =
          orO (lookupA initNtk.outputNames (stFin.outputs.length + j))
            (some ("li" ++ toString (1 + j)))) :=
  claim_C6 initNtk none stFin (by decide) (by decide)

/-- Claim C9: the latch handler only appends one pending-latch record with
the converted reset value and an empty name, leaving the target graph, the
SignalTable, the pending outputs and the input count unchanged; the
register input bound to the resolved next-state signal with the recorded
reset value is created only by the finalization pass. -/
theorem claim_C9 (n : Ntk) (st : ReaderState) (index next : Nat) (reset : LatchInitValue) :
    step (Event.latchEv index next reset) (n, st) =
      Except.ok (n, { st with latches := st.latches ++ [(next, latchResetValue reset, "")] })
    ∧ (on_latch index next reset st).signals = st.signals
    ∧ (on_latch index next reset st).outputs = st.outputs
    ∧ (on_latch index next reset st).num_inputs = st.num_inputs
    ∧ (∀ nm, (∀ p ∈ st.outputs, p.1 >>> 1 < st.signals.length) →
        (∀ t ∈ st.latches, t.1 >>> 1 < st.signals.length) →
        ∃ n2 nm2, finalize n nm st = Except.ok (n2, nm2)
          ∧ n2.ris = n.ris ++ st.latches.map (fun t => (resolveD st.signals t.1, t.2.1))) := by
  refine ⟨rfl, rfl, rfl, rfl, ?_⟩
  intro nm ho hl
  obtain ⟨n2, hfin, _, hris, _⟩ := finalize_spec n nm st ho hl
  exact ⟨n2, _, hfin, hris⟩

/-- Claim C9, witness at concrete inputs. -/
theorem claim_C9_witness :
    step (Event.latchEv 0 3 LatchInitValue.one) (initNtk, stFin) =
      Except.ok (initNtk, { stFin with latches := stFin.latches ++ [(3, 1, "")] })
    ∧ (∃ n2 nm2, finalize initNtk none stFin = Except.ok (n2, nm2)
        ∧ n2.ris = initNtk.ris ++ stFin.latches.map
            (fun t => (resolveD stFin.signals t.1, t.2.1))) :=
  ⟨(claim_C9 initNtk stFin 0 3 LatchInitValue.one).1,
   (claim_C9 initNtk stFin 0 3 LatchInitValue.one).2.2.2.2 none (by decide) (by decide)⟩

theorem latches_names_empty_step (e : Event) (cfg cfg2 : Ntk × ReaderState)
    (hstep : step e cfg = Except.ok cfg2)
    (hinv : ∀ t ∈ cfg.2.latches, t.2.2 = "") :
    ∀ t ∈ cfg2.2.latches, t.2.2 = "" := by
  cases e with
  | header m i l a o =>
    simp only [step] at hstep
    injection hstep with h
    subst h
    simpa [on_header] using hinv
  | inputName idx nm =>
    simp only [step] at hstep
    cases hs : on_input_name idx nm cfg.1 cfg.2 with
    | ok n1 =>
      rw [hs] at hstep
      injection hstep with h
      subst h
      exact hinv
    | error err =>
      rw [hs] at hstep
      exact Except.noConfusion hstep
  | latchName idx nm =>
    simp only [step] at hstep
    cases hs : on_latch_name idx nm cfg.1 cfg.2 with
    | ok n1 =>
      rw [hs] at hstep
      injection hstep with h
      subst h
      exact hinv
    | error err =>
      rw [hs] at hstep
      exact Except.noConfusion hstep
  | outputName idx nm =>
    simp only [step] at hstep
    injection hstep with h
    subst h
    exact hinv
  | andGate idx l r =>
    simp only [step, on_and] at hstep
    by_cases hlen : cfg.2.signals.length = idx
    · rw [if_pos hlen] at hstep
      cases h1 : resolveLit cfg.1 cfg.2.signals l with
      | none =>
        rw [h1] at hstep
        cases h2 : resolveLit cfg.1 cfg.2.signals r with
        | none =>
          rw [h2] at hstep
          exact Except.noConfusion hstep
        | some sr =>
          rw [h2] at hstep
          exact Except.noConfusion hstep
      | some sl =>
        rw [h1] at hstep
        cases h2 : resolveLit cfg.1 cfg.2.signals r with
        | none =>
          rw [h2] at hstep
          exact Except.noConfusion hstep
        | some sr =>
          rw [h2] at hstep
          injection hstep with h
          subst h
          exact hinv
    · rw [if_neg hlen] at hstep
      exact Except.noConfusion hstep
  | latchEv idx next reset =>
    simp only [step] at hstep
    injection hstep with h
    subst h
    intro t ht
    simp only [on_latch] at ht
    rcases List.mem_append.mp ht with hold | hnew
    · exact hinv t hold
    · simp only [List.mem_singleton] at hnew
      subst hnew
      rfl
  | outputEv idx lit =>
    simp only [step, on_output] at hstep
    by_cases hlen : cfg.2.outputs.length = idx
    · rw [if_pos hlen] at hstep
      injection hstep with h
      subst h
      exact hinv
    · rw [if_neg hlen] at hstep
      exact Except.noConfusion hstep

theorem runEvents_latches_names (events : List Event) :
    ∀ cfg cfg2, runEvents events cfg = Except.ok cfg2 →
    (∀ t ∈ cfg.2.latches, t.2.2 = "") → ∀ t ∈ cfg2.2.latches, t.2.2 = "" := by
  induction events with
  | nil =>
    intro cfg cfg2 h hinv
    simp only [runEvents] at h
    injection h with h
    subst h
    exact hinv
  | cons e rest ih =>
    intro cfg cfg2 h hinv
    simp only [runEvents] at h
    cases hs : step e cfg with
    | error err =>
      rw [hs] at h
      exact Except.noConfusion h
    | ok cfg1 =>
      rw [hs] at h
      exact ih cfg1 cfg2 h (latches_names_empty_step e cfg cfg1 hs hinv)

theorem insertLatchNames_all_empty (sigs : List Signal) (lts : List (Nat × Int × String)) :
    ∀ m : NameMap, (∀ t ∈ lts, t.2.2 = "") →
    insertLatchNames sigs lts m = insertLatchNamesNext sigs lts m := by
  induction lts with
  | nil => intro m _; rfl
  | cons t rest ih =>
    intro m hinv
    have ht : t.2.2 ++ "_next" = "_next" := by
      rw [hinv t (by simp)]
      decide
    simp only [insertLatchNames, insertLatchNamesNext, List.foldl_cons] at ih ⊢
    rw [ht]
    exact ih _ (fun q hq => hinv q (List.mem_cons_of_mem _ hq))

/-- Claim C10: in every successful run of the decoder every pending latch
record carries the empty string as its stored name (no event ever updates
it), so the name the finalization pass inserts into a supplied NameMap for
each latch, the stored name with "_next" appended, is always exactly the
string "_next". -/
theorem claim_C10 (events : List Event) (n : Ntk) (st : ReaderState)
    (hrun : runEvents events (initNtk, initState) = Except.ok (n, st)) :
    (∀ t ∈ st.latches, t.2.2 = "" ∧ t.2.2 ++ "_next" = "_next")
    ∧ (∀ m, (∀ p ∈ st.outputs, p.1 >>> 1 < st.signals.length) →
        (∀ t ∈ st.latches, t.1 >>> 1 < st.signals.length) →
        ∃ n2, finalize n (some m) st = Except.ok (n2,
          some (insertLatchNamesNext st.signals st.latches
            (insertOutputNames st.signals st.outputs m)))) := by
  have hinv : ∀ t ∈ st.latches, t.2.2 = "" :=
    runEvents_latches_names events (initNtk, initState) (n, st) hrun
      (by simp [initState])
  constructor
  · intro t ht
    refine ⟨hinv t ht, ?_⟩
    rw [hinv t ht]
    decide
  · intro m ho hl
    obtain ⟨n2, hfin, _⟩ := finalize_spec n (some m) st ho hl
    refine ⟨n2, ?_⟩
    rw [hfin]
    simp only [Option.map_some']
    rw [insertLatchNames_all_empty st.signals st.latches
      (insertOutputNames st.signals st.outputs m) hinv]

/-- Claim C10, witness at a concrete event stream with one latch. -/
theorem claim_C10_witness :
    (∀ t ∈ stL.latches, t.2.2 = "" ∧ t.2.2 ++ "_next" = "_next")
    ∧ (∃ n2, finalize ntkL (some NameMap.empty) stL = Except.ok (n2,
        some (insertLatchNamesNext stL.signals stL.latches
          (insertOutputNames stL.signals stL.outputs NameMap.empty)))) :=
  ⟨(claim_C10 evsL ntkL stL (by rfl)).1,
   (claim_C10 evsL ntkL stL (by rfl)).2 NameMap.empty (by decide) (by decide)⟩

end AigerReader
